import Mathlib

set_option maxRecDepth 8000

/-! Shallow embedding of the avherald-scraper headline parser
    (src/avherald_scraper/avherald_scraper.py together with the static
    catalog in src/avherald_scraper/aircraft_models.py).

    Python strings are modelled as `List Char`.  Python `str` methods
    (`strip`, `split`, `lower`, `replace`) and the regular expressions
    compiled in the source are modelled by explicit recursive functions
    whose behaviour matches the CPython semantics on the character set
    the scraper works with (ASCII text plus the two CJK characters of
    the secondary-title marker).  Fallible operations return `Option`. -/

/-- Python whitespace, as used by `str.split()`, `str.strip()` and the
    regex class `\s` on the inputs handled here. -/
def isPySpace (c : Char) : Bool :=
  c == ' ' || c == '\t' || c == '\n' || c == '\r' || c == '\x0b' || c == '\x0c'

/-- Python `char.isalpha()`.  CPython is Unicode aware; the parser only
    ever meets ASCII letters plus the two CJK characters of the
    secondary-title marker, so those are the alphabetic characters of
    the model. -/
def pyIsAlpha (c : Char) : Bool :=
  c.isAlpha || c == '标' || c == '记'

/-- A regex word character (`\w` / `\b` classification) over the same
    alphabet. -/
def pyIsWordChar (c : Char) : Bool :=
  c.isAlphanum || c == '_' || c == '标' || c == '记'

/-- Membership in the regex class `[A-Za-z0-9]`. -/
def isAsciiAlphanum (c : Char) : Bool :=
  c.isAlpha || c.isDigit

/-- Python `str.lower()` (ASCII letters; other characters are fixed). -/
def lowerStr (l : List Char) : List Char :=
  l.map Char.toLower

/-- Boolean prefix test on lists. -/
def startsWithL {α : Type} [DecidableEq α] : List α → List α → Bool
  | [], _ => true
  | _ :: _, [] => false
  | p :: ps, c :: cs => p == c && startsWithL ps cs

/-- Boolean suffix test on lists. -/
def endsWithL {α : Type} [DecidableEq α] (p l : List α) : Bool :=
  startsWithL p.reverse l.reverse

/-- Whether `pat` occurs as a contiguous sublist of `l`. -/
def occursIn (pat : List Char) : List Char → Bool
  | [] => pat.isEmpty
  | c :: rest => startsWithL pat (c :: rest) || occursIn pat rest

/-- Python `str.strip(chars)`: removes characters of `chars` from both
    ends. -/
def pyStrip (chars l : List Char) : List Char :=
  ((l.dropWhile (fun c => chars.contains c)).reverse.dropWhile
    (fun c => chars.contains c)).reverse

/-- Python `str.strip()` (default whitespace stripping). -/
def pyStripWS (l : List Char) : List Char :=
  ((l.dropWhile isPySpace).reverse.dropWhile isPySpace).reverse

/-- Worker for `splitWS`, accumulating the current word reversed. -/
def splitWSAux : List Char → List Char → List (List Char)
  | [], acc => if acc = [] then [] else [acc.reverse]
  | c :: rest, acc =>
    if isPySpace c then
      if acc = [] then splitWSAux rest []
      else acc.reverse :: splitWSAux rest []
    else splitWSAux rest (c :: acc)

/-- Python `str.split()`: split on whitespace runs, dropping empties. -/
def splitWS (l : List Char) : List (List Char) :=
  splitWSAux l []

/-- Python `sep.join(xs)`. -/
def joinSep (sep : List Char) : List (List Char) → List Char
  | [] => []
  | [x] => x
  | x :: y :: rest => x ++ sep ++ joinSep sep (y :: rest)

/-- Index of the first element satisfying `p`. -/
def findFirstIdx {α : Type} (p : α → Bool) : List α → Option Nat
  | [] => none
  | a :: rest => if p a then some 0 else (findFirstIdx p rest).map (· + 1)

/-- Numeric value of a list of decimal digit characters. -/
def natOfDigits (l : List Char) : Nat :=
  l.foldl (fun n c => 10 * n + (c.toNat - 48)) 0

/-! ## Static reference data (aircraft_models.py and module constants) -/

/-- `AIRCRAFT_MODEL_NAMES` from aircraft_models.py, verbatim. -/
def AIRCRAFT_MODEL_NAMES : List String := [
  "A318", "A319", "A319neo", "A320", "A320neo", "A321", "A321neo",
  "A20N", "A21N", "A220", "A220-100", "A220-300", "A221", "A223",
  "A300", "A300-600", "A306", "A310", "A330", "A330-200", "A330-300",
  "A330-800", "A330-900", "A332", "A333", "A338", "A339",
  "A340", "A340-200", "A340-300", "A340-500", "A340-600",
  "A342", "A343", "A345", "A346",
  "A350", "A350-900", "A350-1000", "A359", "A35K",
  "A380", "A380-800", "A388",
  "B707", "B712", "B717", "B720", "B721", "B722", "B727",
  "B731", "B732", "B733", "B734", "B735", "B736", "B737",
  "B737-200", "B737-300", "B737-400", "B737-500", "B737-600",
  "B737-700", "B737-800", "B737-900",
  "B738", "B739", "B73H", "B73M", "B37M", "B38M", "B39M",
  "B741", "B742", "B743", "B744", "B747-200", "B747-300", "B747-400",
  "B747-8", "B748",
  "B752", "B753", "B757-200", "B757-300",
  "B762", "B763", "B764", "B767-200", "B767-300", "B767-400",
  "B772", "B773", "B77L", "B77W", "B777-200", "B777-300",
  "B788", "B789", "B78X", "B787-8", "B787-9", "B787-10",
  "DC8", "DC-8", "DC9", "DC-9", "DC10", "DC-10",
  "MD10", "MD11",
  "MD80", "MD81", "MD82", "MD83", "MD87", "MD88", "MD90",
  "ERJ135", "ERJ140", "ERJ145",
  "E135", "E140", "E145",
  "E170", "E175", "E190", "E195",
  "E170-E2", "E190-E2", "E195-E2",
  "EMB-110", "EMB110", "EMB-120", "EMB120",
  "CRJ1", "CRJ2", "CRJ-200", "CRJ7", "CRJ-700", "CRJ9", "CRJ-900",
  "CRJ10", "CRJ-1000", "CRJX",
  "DHC-6", "DHC-7", "DHC-8",
  "DH8A", "DH8B", "DH8C", "DH8D",
  "Q100", "Q200", "Q300", "Q400",
  "ATR 42", "ATR-42", "ATR42",
  "ATR 72", "ATR-72", "ATR72",
  "AT45", "AT46", "AT72", "AT75", "AT76",
  "F27", "F28", "F50", "F70", "F100",
  "BAE 146", "BAE-146", "RJ70", "RJ85", "RJ100",
  "Avro RJ85", "Avro RJ100",
  "SF34", "SAAB 340", "SAAB 2000",
  "Do 228", "Do 328", "Dornier 228", "Dornier 328", "328JET",
  "SH33", "SH36", "Short 330", "Short 360",
  "BE20", "BE30", "BE35", "BE36", "BE99", "B190", "B200",
  "C152", "C172", "C182", "C185", "C188",
  "C206", "C208", "C210", "C310", "C340", "C402", "C404",
  "C414", "C421", "C425", "C441",
  "PA-23", "PA-28", "PA-31", "PA-34", "PA-42", "PA-46",
  "PC-6", "PC-7", "PC-9", "PC-12", "PC12",
  "SR20", "SR22",
  "DA40", "DA42", "DA62",
  "TBM700", "TBM-700", "TBM850", "TBM900",
  "AS350", "AS355", "EC120", "EC130", "EC135", "EC145",
  "EC155", "EC175", "EC225",
  "BK117", "BO105",
  "B212", "B412", "B429",
  "S61", "S76", "S92",
  "AW109", "AW139", "AW169", "AW189",
  "UH-60", "S-70",
  "AN2", "AN12", "AN24", "AN26", "AN28", "AN30", "AN32",
  "AN72", "AN124", "AN140", "AN148",
  "IL18", "IL62", "IL76", "IL86", "IL96",
  "TU134", "TU154", "TU204",
  "Yak-40", "Yak-42",
  "Superjet 100", "SSJ100",
  "MA60", "MA600", "ARJ21", "C919",
  "BN2", "BN-2", "Islander", "Trislander",
  "JS31", "JS32", "JS41",
  "L410", "Let 410",
  "Metro III", "Metro 23", "SW3", "SW4",
  "King Air", "Twin Otter", "Grand Caravan"]

/-- `AIRCRAFT_KEYWORDS` from the scraper, verbatim. -/
def AIRCRAFT_KEYWORDS : List String := [
  "aerospatiale", "agusta", "airbus", "airtractor", "antonov", "atr",
  "avro", "bae", "beechcraft", "bell", "boeing", "bombardier",
  "britten", "caravan", "cessna", "dash", "challenger", "cirrus",
  "citation", "comac", "crj", "dassault", "diamond", "dhc", "dornier",
  "douglas", "embraer", "falcon", "fairchild", "fokker", "gulfstream",
  "helicopter", "ilyushin", "learjet", "let", "lockheed", "mcdonnell",
  "mitsubishi", "mooney", "otter", "pilatus", "piper", "robinson",
  "saab", "sikorsky", "sukhoi", "superjet", "tecnam", "tupolev",
  "ultralight", "yakovlev"]

/-- `AIRCRAFT_MULTIWORD_PATTERNS` from the scraper. -/
def AIRCRAFT_MULTIWORD_PATTERNS : List (List String) :=
  [["king", "air"], ["twin", "otter"], ["grand", "caravan"],
   ["britten", "norman"]]

/-- `AIRCRAFT_STOPWORDS` from the scraper, verbatim. -/
def AIRCRAFT_STOPWORDS : List String := [
  "enroute", "en-route", "inflight", "taxi", "taxiing", "departing",
  "departed", "arrival", "arriving", "landing", "takeoff", "take-off",
  "climbed", "descending", "descended", "without", "with", "after",
  "before", "during", "from", "to", "over", "near", "at", "on",
  "while", "when", "and", "due", "because", "following", "shortly",
  "short", "long", "approach", "runway", "stand", "gate"]

/-- `SECONDARY_TITLE_PREFIX = "[标记"` from the scraper. -/
def secondaryTitleMarker : List Char := "[标记".data

/-- `_TOKEN_STRIP_CHARS = " ,.;()/[]{}"` from the scraper. -/
def TOKEN_STRIP_CHARS : List Char := " ,.;()/[]\x7b\x7d".data

/-- The `"Unknown"` sentinel. -/
def unknownStr : List Char := "Unknown".data

/-- Keyword set as character lists. -/
def aircraftKeywordsL : List (List Char) :=
  AIRCRAFT_KEYWORDS.map String.data

/-- Stopword set as character lists. -/
def aircraftStopwordsL : List (List Char) :=
  AIRCRAFT_STOPWORDS.map String.data

/-- Multiword descriptor patterns as character lists. -/
def multiwordPatternsL : List (List (List Char)) :=
  AIRCRAFT_MULTIWORD_PATTERNS.map (fun p => p.map String.data)

/-! ## Token normalisation and the catalog lookup -/

/-- `_normalize_aircraft_token`: strips `_TOKEN_STRIP_CHARS` from both
    ends of a token. -/
def normalizeAircraftToken (token : List Char) : List Char :=
  pyStrip TOKEN_STRIP_CHARS token

/-- `_normalize_model_key`: lowercases and removes every character that
    is not in `[a-z0-9]`. -/
def normalizeModelKey (text : List Char) : List Char :=
  (lowerStr text).filter (fun c => ('a' ≤ c && c ≤ 'z') || ('0' ≤ c && c ≤ '9'))

/-- The key set of `_AIRCRAFT_MODEL_LOOKUP` (only membership is ever
    queried by the scraper, so the dictionary is modelled by its key
    list). -/
def aircraftModelKeys : List (List Char) :=
  AIRCRAFT_MODEL_NAMES.map (fun name => normalizeModelKey name.data)

/-- `_AIRCRAFT_MODEL_MAX_TOKENS = 6`. -/
def AIRCRAFT_MODEL_MAX_TOKENS : Nat := 6

/-! ## Aircraft boundary detection -/

/-- `_tokens_are_manufacturers`: all tokens normalise to non-empty
    manufacturer keywords (an empty token list yields `false`). -/
def tokensAreManufacturers (tokens : List (List Char)) : Bool :=
  !tokens.isEmpty && tokens.all fun token =>
    let stripped := lowerStr (normalizeAircraftToken token)
    !stripped.isEmpty && stripped ∈ aircraftKeywordsL

/-- `_token_matches_aircraft`: the token is a manufacturer keyword, or
    its `[A-Za-z0-9]` residue has length at least 3 and contains both a
    letter and a digit. -/
def tokenMatchesAircraft (token : List Char) : Bool :=
  if token = [] then false
  else if lowerStr token ∈ aircraftKeywordsL then true
  else
    let alphanumeric := token.filter isAsciiAlphanum
    if alphanumeric.length < 3 then false
    else alphanumeric.any Char.isAlpha && alphanumeric.any Char.isDigit

/-- The catalog condition checked by `_match_known_aircraft_tokens` for
    a run of `n` sanitized tokens: every token of the run is non-empty
    and the normalized key of their space-join is in the catalog. -/
def modelRunOk (sanitizedTokens : List (List Char)) (n : Nat) : Prop :=
  (∀ t ∈ sanitizedTokens.take n, t ≠ []) ∧
    normalizeModelKey (joinSep [' '] (sanitizedTokens.take n)) ∈ aircraftModelKeys

instance (sanitizedTokens : List (List Char)) (n : Nat) :
    Decidable (modelRunOk sanitizedTokens n) := by
  unfold modelRunOk; infer_instance

/-- The descending-length loop of `_match_known_aircraft_tokens`. -/
def matchKnownAux (rawTokens sanitizedTokens : List (List Char)) : Nat → Option (List (List Char))
  | 0 => none
  | n + 1 =>
    if modelRunOk sanitizedTokens (n + 1) then some (rawTokens.take (n + 1))
    else matchKnownAux rawTokens sanitizedTokens n

/-- `_match_known_aircraft_tokens`: the longest prefix run (of up to 6
    tokens) of `rawTokens` whose sanitized space-join is a catalog key. -/
def matchKnownAircraftTokens (rawTokens : List (List Char)) : Option (List (List Char)) :=
  matchKnownAux rawTokens (rawTokens.map normalizeAircraftToken)
    (min rawTokens.length AIRCRAFT_MODEL_MAX_TOKENS)

/-- Worker for `_find_aircraft_start_by_model`, carrying the index. -/
def findByModelAux : List (List Char) → Nat → Option Nat
  | [], _ => none
  | t :: rest, i =>
    if (matchKnownAircraftTokens (t :: rest)).isSome then some i
    else findByModelAux rest (i + 1)

/-- `_find_aircraft_start_by_model`. -/
def findAircraftStartByModel (rawTokens : List (List Char)) : Option Nat :=
  findByModelAux rawTokens 0

/-- Leftmost index at which `pat` occurs as a contiguous token segment. -/
def findSegIdx (pat : List (List Char)) : List (List Char) → Option Nat
  | [] => none
  | t :: rest =>
    if startsWithL pat (t :: rest) then some 0
    else (findSegIdx pat rest).map (· + 1)

/-- The multi-word descriptor scan: patterns are tried in list order,
    and the first pattern that occurs anywhere yields its leftmost
    index (mirrors the nested loops of `_find_aircraft_start_index`). -/
def findMultiwordIdx (loweredTokens : List (List Char)) : Option Nat :=
  multiwordPatternsL.findSome? (fun pat => findSegIdx pat loweredTokens)

/-- `_find_aircraft_start_index`: known-model scan, then multi-word
    descriptor scan, then keyword scan. -/
def findAircraftStartIndex (rawTokens strippedTokens loweredTokens : List (List Char)) :
    Option Nat :=
  match findAircraftStartByModel rawTokens with
  | some i => some i
  | none =>
    match findMultiwordIdx loweredTokens with
    | some i => some i
    | none => findFirstIdx tokenMatchesAircraft strippedTokens

/-! ## Trailing-word trimming -/

/-- A token whose normalized, lowercased form is a stopword. -/
def isStopToken (token : List Char) : Bool :=
  let stripped := normalizeAircraftToken token
  !stripped.isEmpty && lowerStr stripped ∈ aircraftStopwordsL

/-- The accumulation loop of `_trim_aircraft_tokens`. -/
def trimAircraftLoop : List (List Char) → List (List Char) → List (List Char)
  | [], trimmed => trimmed.reverse
  | token :: rest, trimmed =>
    if isStopToken token && !trimmed.isEmpty then trimmed.reverse
    else trimAircraftLoop rest (token :: trimmed)

/-- `_trim_aircraft_tokens`. -/
def trimAircraftTokens (rawTokens : List (List Char)) : List (List Char) :=
  if rawTokens = [] then rawTokens
  else
    match matchKnownAircraftTokens rawTokens with
    | some knownMatch => knownMatch
    | none =>
      let trimmed := trimAircraftLoop rawTokens []
      if trimmed = [] then rawTokens else trimmed

/-! ## Subject segmentation -/

/-- The location alternatives of `LOCATION_SPLIT_REGEX`, lowercased, in
    alternation order. -/
def locationAltsL : List (List Char) :=
  ["at".data, "near".data, "over".data, "enroute to".data, "en route to".data]

/-- Whether some location alternative matches at the head of `l` with a
    word boundary at its right end (all alternatives start and end with
    word characters, so `\b` reduces to these checks). -/
def locMatchesAt (l : List Char) : Bool :=
  locationAltsL.any fun alt =>
    lowerStr (l.take alt.length) == alt &&
      (match l.drop alt.length with
       | [] => true
       | c :: _ => !pyIsWordChar c)

/-- Scanner for `LOCATION_SPLIT_REGEX.search`: walks the text carrying
    the previous character (for the left word boundary) and the index. -/
def locSearchAux : List Char → Option Char → Nat → Option Nat
  | [], _, _ => none
  | c :: rest, prev, i =>
    if (match prev with
        | none => true
        | some p => !pyIsWordChar p) && locMatchesAt (c :: rest) then some i
    else locSearchAux rest (some c) (i + 1)

/-- Start index of the first `LOCATION_SPLIT_REGEX` match, if any. -/
def locationSearchIdx (l : List Char) : Option Nat :=
  locSearchAux l none 0

/-- `_extract_subject_segment`. -/
def extractSubjectSegment (cleanTitle : List Char) : List Char :=
  if cleanTitle = [] then []
  else
    match locationSearchIdx cleanTitle with
    | some p => pyStripWS (cleanTitle.take p)
    | none => pyStripWS cleanTitle

/-- If a `SUBJECT_CONJUNCTION_REGEX` match (`\s+(?:and|&)\s+`, case
    insensitive) begins at the head of `l`, returns the text after the
    match; the leading and trailing whitespace runs are maximal, which
    is what the leftmost-match and greedy semantics of `re.split`
    produce here. -/
def conjTailAfter (l : List Char) : Option (List Char) :=
  match l with
  | [] => none
  | c :: _ =>
    if isPySpace c then
      let l1 := l.dropWhile isPySpace
      if lowerStr (l1.take 3) == "and".data then
        match l1.drop 3 with
        | d :: tl => if isPySpace d then some ((d :: tl).dropWhile isPySpace) else none
        | [] => none
      else if startsWithL ['&'] l1 then
        match l1.drop 1 with
        | d :: tl => if isPySpace d then some ((d :: tl).dropWhile isPySpace) else none
        | [] => none
      else none
    else none

theorem dropWhileLengthLe {α : Type} (p : α → Bool) (l : List α) :
    (l.dropWhile p).length ≤ l.length := by
  induction l with
  | nil => simp
  | cons a t ih =>
    by_cases h : p a = true
    · rw [List.dropWhile_cons_of_pos h]
      simp only [List.length_cons]
      omega
    · simp [List.dropWhile_cons, h]

theorem conjTailAfter_length_lt {l r : List Char} (h : conjTailAfter l = some r) :
    r.length < l.length := by
  match l with
  | [] => simp [conjTailAfter] at h
  | c :: rest =>
    unfold conjTailAfter at h
    by_cases hsp : isPySpace c = true
    · simp only [hsp, if_true] at h
      have hdw : ((c :: rest).dropWhile isPySpace).length ≤ rest.length := by
        have he : (c :: rest).dropWhile isPySpace = rest.dropWhile isPySpace := by
          simp [List.dropWhile_cons, hsp]
        rw [he]
        exact dropWhileLengthLe isPySpace rest
      set l1 := (c :: rest).dropWhile isPySpace with hl1
      have hle : ∀ (k : Nat) (d : Char) (tl : List Char), l1.drop k = d :: tl →
          ((d :: tl).dropWhile isPySpace).length < (c :: rest).length := by
        intro k d tl hdrop
        have h1 : ((d :: tl).dropWhile isPySpace).length ≤ (d :: tl).length :=
          dropWhileLengthLe isPySpace (d :: tl)
        have h2 : (d :: tl).length ≤ l1.length := by
          have h4 : (l1.drop k).length ≤ l1.length := by
            rw [List.length_drop]; omega
          rw [hdrop] at h4
          exact h4
        have h3 : l1.length ≤ rest.length := hdw
        simp only [List.length_cons]
        omega
      split at h
      · split at h
        · rename_i d tl hdrop
          split at h
          · cases h; exact hle 3 d tl hdrop
          · cases h
        · cases h
      · split at h
        · split at h
          · rename_i d tl hdrop
            split at h
            · cases h; exact hle 1 d tl hdrop
            · cases h
          · cases h
        · cases h
    · simp [hsp] at h

/-- Worker for `SUBJECT_CONJUNCTION_REGEX.split`, accumulating the
    current fragment reversed.  Structural recursion on a fuel counter
    keeps the definition kernel-computable; by
    `conjTailAfter_length_lt` each step shrinks the text, so fuel
    `l.length + 1` (as supplied by `regexSplitConj`) never runs out. -/
def splitConjAux : Nat → List Char → List Char → List (List Char)
  | 0, _, acc => [acc.reverse]
  | fuel + 1, l, acc =>
    match conjTailAfter l with
    | some r => acc.reverse :: splitConjAux fuel r []
    | none =>
      match l with
      | [] => [acc.reverse]
      | c :: rest => splitConjAux fuel rest (c :: acc)

/-- `SUBJECT_CONJUNCTION_REGEX.split`. -/
def regexSplitConj (l : List Char) : List (List Char) :=
  splitConjAux (l.length + 1) l []

/-- `_split_subject_chunks`. -/
def splitSubjectChunks (subject : List Char) : List (List Char) :=
  if subject = [] then []
  else
    (regexSplitConj subject).filterMap fun chunk =>
      if chunk ≠ [] ∧ pyStrip " ,;/".data chunk ≠ [] then
        some (pyStrip " ,;/".data chunk)
      else none

/-! ## Chunk parsing -/

/-- Joins aircraft tokens, strips stray punctuation and falls back to
    the sentinel, as in the last two lines of `_parse_subject_chunk`. -/
def joinAircraft (tokens : List (List Char)) : List Char :=
  let aircraft := pyStrip " ,.;".data (joinSep [' '] tokens)
  if aircraft = [] then unknownStr else aircraft

/-- `_parse_subject_chunk`. -/
def parseSubjectChunk (chunk : List Char) : List Char × List Char :=
  let rawTokens := splitWS chunk
  if rawTokens = [] then (unknownStr, unknownStr)
  else
    let strippedTokens := rawTokens.map normalizeAircraftToken
    let loweredTokens := strippedTokens.map lowerStr
    match findAircraftStartIndex rawTokens strippedTokens loweredTokens with
    | none => (unknownStr, pyStripWS chunk)
    | some aircraftStart =>
      let airlineTokens := rawTokens.take aircraftStart
      let aircraftTokens := rawTokens.drop aircraftStart
      if tokensAreManufacturers airlineTokens then
        (unknownStr, joinAircraft (trimAircraftTokens (airlineTokens ++ aircraftTokens)))
      else
        let alphaTokens := airlineTokens.filter (fun t => t.any pyIsAlpha)
        let airline := pyStripWS (joinSep [' '] alphaTokens)
        if airline = [] then
          let numericTokens := airlineTokens.filter (fun t => !t.any pyIsAlpha)
          (unknownStr, joinAircraft (trimAircraftTokens (numericTokens ++ aircraftTokens)))
        else
          (airline, joinAircraft (trimAircraftTokens aircraftTokens))

/-- `_chunks_are_valid`. -/
def chunksAreValid (parsedChunks : List (List Char × List Char)) : Prop :=
  2 ≤ parsedChunks.length ∧ ∀ p ∈ parsedChunks, p.2 ≠ unknownStr

instance (parsedChunks : List (List Char × List Char)) :
    Decidable (chunksAreValid parsedChunks) := by
  unfold chunksAreValid; infer_instance

/-- `_extract_aircraft_entries`. -/
def extractAircraftEntries (cleanTitle : List Char) : List (List Char × List Char) :=
  let subject := extractSubjectSegment cleanTitle
  if subject = [] then [(unknownStr, unknownStr)]
  else
    let chunks := splitSubjectChunks subject
    if chunks ≠ [] ∧ chunksAreValid (chunks.map parseSubjectChunk) then
      chunks.map parseSubjectChunk
    else
      [parseSubjectChunk subject]

/-- `_build_variant_title`. -/
def buildVariantTitle (originalTitle airline : List Char) (variantIndex : Nat) : List Char :=
  if variantIndex = 0 then originalTitle
  else
    secondaryTitleMarker ++ [' '] ++
      (if airline = unknownStr then '#' :: (Nat.repr (variantIndex + 1)).data else airline) ++
      [']', ' '] ++ originalTitle

/-! ## Date handling -/

/-- Month abbreviations of `DATE_REGEX` (case sensitive). -/
def dateMonthsL : List (List Char) :=
  ["Jan".data, "Feb".data, "Mar".data, "Apr".data, "May".data, "Jun".data,
   "Jul".data, "Aug".data, "Sep".data, "Oct".data, "Nov".data, "Dec".data]

/-- Lowercased month abbreviations, in order, for `strptime`'s
    case-insensitive `%b`. -/
def monthNamesLower : List (List Char) :=
  ["jan".data, "feb".data, "mar".data, "apr".data, "may".data, "jun".data,
   "jul".data, "aug".data, "sep".data, "oct".data, "nov".data, "dec".data]

/-- Ordinal suffixes (`st|nd|rd|th`). -/
def isOrdPair (a b : Char) : Bool :=
  (a == 's' && b == 't') || (a == 'n' && b == 'd') ||
    (a == 'r' && b == 'd') || (a == 't' && b == 'h')

/-- Worker for `ORDINAL_SUFFIX_REGEX.sub("", ...)`; the flag records
    whether the previous character of the original text is a digit
    (the `(?<=\d)` lookbehind). -/
def removeOrdinalsAux : List Char → Bool → List Char
  | [], _ => []
  | [c], _ => [c]
  | a :: b :: rest, prevDigit =>
    if prevDigit && isOrdPair a b then removeOrdinalsAux rest false
    else a :: removeOrdinalsAux (b :: rest) a.isDigit

/-- `ORDINAL_SUFFIX_REGEX.sub("", date_string)`. -/
def removeOrdinals (l : List Char) : List Char :=
  removeOrdinalsAux l false

/-- Proleptic-Gregorian leap year. -/
def isLeapYear (y : Nat) : Bool :=
  y % 4 == 0 && (y % 100 != 0 || y % 400 == 0)

/-- Number of days in month `m` (1-based) of year `y`. -/
def daysInMonth (y m : Nat) : Nat :=
  match m with
  | 1 => 31
  | 2 => if isLeapYear y then 29 else 28
  | 3 => 31
  | 4 => 30
  | 5 => 31
  | 6 => 30
  | 7 => 31
  | 8 => 31
  | 9 => 30
  | 10 => 31
  | 11 => 30
  | 12 => 31
  | _ => 0

/-- Days in the months strictly before month `m`, in a common year. -/
def daysBeforeMonth (m : Nat) : Nat :=
  match m with
  | 1 => 0
  | 2 => 31
  | 3 => 59
  | 4 => 90
  | 5 => 120
  | 6 => 151
  | 7 => 181
  | 8 => 212
  | 9 => 243
  | 10 => 273
  | 11 => 304
  | 12 => 334
  | _ => 0

/-- Days from 0001-01-01 to the start of year `y` (proleptic
    Gregorian), i.e. the day ordinal of Jan 1st of year `y` minus 1. -/
def daysBeforeYear (y : Nat) : Nat :=
  365 * (y - 1) + (y - 1) / 4 - (y - 1) / 100 + (y - 1) / 400

/-- `calendar.timegm` applied to midnight of the given date: seconds
    since the Unix epoch, negative before 1970.  1970-01-01 has day
    ordinal 719163. -/
def timegmMidnight (y m d : Nat) : Int :=
  (((daysBeforeYear y + daysBeforeMonth m +
      (if 2 < m && isLeapYear y then 1 else 0) + d : Nat) : Int) - 719163) * 86400

/-- Index (1-based) of a lowercased month abbreviation. -/
def monthIndex (s : List Char) : Option Nat :=
  (findFirstIdx (fun m => m == s) monthNamesLower).map (· + 1)

/-- `datetime.strptime(cleaned, "%b %d %Y")` as used by
    `date_to_timestamp`: the CPython implementation compiles this
    format to the anchored, case-insensitive pattern
    month-abbreviation, `\s+`, day (`3[01]|[12]\d|0[1-9]|[1-9]`),
    `\s+`, `\d\d\d\d`, with no text allowed after the match, and then
    constructs a `datetime`, which checks that the day exists in the
    month and that the year is at least 1.  Returns (year, month, day). -/
def strptimeBDY (l : List Char) : Option (Nat × Nat × Nat) :=
  match monthIndex (lowerStr (l.take 3)) with
  | none => none
  | some m =>
    let l1 := l.drop 3
    let l2 := l1.dropWhile isPySpace
    if l1.length = l2.length then none
    else
      let digits := l2.takeWhile Char.isDigit
      if digits.length = 0 ∨ 3 ≤ digits.length then none
      else
        let day := natOfDigits digits
        if day = 0 ∨ 31 < day then none
        else
          let l3 := l2.drop digits.length
          let l4 := l3.dropWhile isPySpace
          if l3.length = l4.length then none
          else if l4.length = 4 ∧ l4.all Char.isDigit then
            let year := natOfDigits l4
            if year = 0 then none
            else if day ≤ daysInMonth year m then some (year, m, day) else none
          else none

/-- `date_to_timestamp` (the `show_details` parameter only controls
    diagnostic printing and is omitted). -/
def dateToTimestamp (dateString : List Char) : Option Int :=
  if dateString = [] then none
  else
    match strptimeBDY (removeOrdinals dateString) with
    | none => none
    | some (y, m, d) => some (timegmMidnight y m d)

/-- Length of a `DATE_REGEX` match starting at the head of `l`:
    three-letter month, `\s+`, one or two digits, an ordinal suffix,
    `\s+`, four digits.  (With three or more consecutive digits after
    the month no alternative of `\d{1,2}` can be followed by a suffix
    letter, so the position fails, matching the backtracking
    semantics.) -/
def dateMatchLen (l : List Char) : Option Nat :=
  if dateMonthsL.any (fun m => startsWithL m l) then
    let l1 := l.drop 3
    let l2 := l1.dropWhile isPySpace
    let w1 := l1.length - l2.length
    if w1 = 0 then none
    else
      let digits := l2.takeWhile Char.isDigit
      if digits.length = 0 ∨ 3 ≤ digits.length then none
      else
        let l3 := l2.drop digits.length
        if (isOrdPair (l3.headD ' ') ((l3.drop 1).headD ' ')) &&
            decide (2 ≤ l3.length) then
          let l4 := l3.drop 2
          let l5 := l4.dropWhile isPySpace
          let w2 := l4.length - l5.length
          if w2 = 0 then none
          else if (l5.take 4).length = 4 ∧ (l5.take 4).all Char.isDigit then
            some (3 + w1 + digits.length + 2 + w2 + 4)
          else none
        else none
  else none

/-- `DATE_REGEX.search`: earliest match position together with the
    matched text. -/
def dateSearchAux : List Char → Nat → Option (Nat × List Char)
  | [], _ => none
  | c :: rest, i =>
    match dateMatchLen (c :: rest) with
    | some n => some (i, (c :: rest).take n)
    | none => dateSearchAux rest (i + 1)

/-- Python `str.replace(old, "")` (all occurrences, scanning left to
    right without overlap), for non-empty `old`; structural recursion
    on a fuel counter keeps it kernel-computable, and fuel
    `l.length + 1` (as supplied by `replaceAll`) never runs out because
    every step consumes at least one character. -/
def replaceAllAux (old : List Char) : Nat → List Char → List Char
  | 0, l => l
  | _ + 1, [] => []
  | fuel + 1, c :: rest =>
    if startsWithL old (c :: rest) then
      replaceAllAux old fuel ((c :: rest).drop old.length)
    else c :: replaceAllAux old fuel rest

/-- Python `str.replace(old, "")` for non-empty `old`. -/
def replaceAll (l old : List Char) : List Char :=
  if old = [] then l else replaceAllAux old (l.length + 1) l

/-! ## The title processor -/

/-- One output record of `process_title`. -/
structure ParsedEntry where
  title : List Char
  timestamp : Option Int
  airline : List Char
  aircraft : List Char
deriving DecidableEq

/-- The `title = original_title.strip()` step of `process_title`. -/
def strippedTitle (originalTitle : List Char) : List Char :=
  pyStripWS originalTitle

/-- The working text before date handling: the stripped title truncated
    at the first comma (`title.split(',', 1)[0].strip()`) when a comma
    is present. -/
def preCommaText (originalTitle : List Char) : List Char :=
  if (',' : Char) ∈ strippedTitle originalTitle then
    pyStripWS ((strippedTitle originalTitle).takeWhile (fun c => c != ','))
  else strippedTitle originalTitle

/-- `DATE_REGEX.search(title_for_parsing)` of `process_title`, reduced
    to the matched text. -/
def foundDate (originalTitle : List Char) : Option (List Char) :=
  (dateSearchAux (preCommaText originalTitle) 0).map (·.2)

/-- The timestamp shared by all entries of one headline. -/
def entryTimestamp (originalTitle : List Char) : Option Int :=
  match foundDate originalTitle with
  | some dateStr => dateToTimestamp dateStr
  | none => none

/-- The working text handed to `_extract_aircraft_entries`: when a date
    phrase was found, every occurrence of `" on " + date_str` is
    removed and the result stripped. -/
def titleForParsing (originalTitle : List Char) : List Char :=
  match foundDate originalTitle with
  | some dateStr =>
    pyStripWS (replaceAll (preCommaText originalTitle) (" on ".data ++ dateStr))
  | none => preCommaText originalTitle

/-- The `for idx, (airline, aircraft) in enumerate(pairs)` loop of
    `process_title`. -/
def buildEntries (title0 : List Char) (ts : Option Int) :
    Nat → List (List Char × List Char) → List ParsedEntry
  | _, [] => []
  | idx, (airline, aircraft) :: rest =>
    ⟨buildVariantTitle title0 airline idx, ts, airline, aircraft⟩ ::
      buildEntries title0 ts (idx + 1) rest

/-- `process_title`. -/
def processTitle (originalTitle : List Char) : List ParsedEntry :=
  buildEntries (strippedTitle originalTitle) (entryTimestamp originalTitle) 0
    (extractAircraftEntries (titleForParsing originalTitle))

/-! ## General helper lemmas -/

theorem startsWithL_self_append {α : Type} [DecidableEq α] (p t : List α) :
    startsWithL p (p ++ t) = true := by
  induction p with
  | nil => simp [startsWithL]
  | cons a ps ih => simp [startsWithL, ih]

theorem endsWithL_append_self (p t : List Char) :
    endsWithL p (t ++ p) = true := by
  unfold endsWithL
  rw [List.reverse_append]
  exact startsWithL_self_append p.reverse t.reverse

theorem mem_dropWhile_of_not {α : Type} {p : α → Bool} {c : α} :
    ∀ {l : List α}, c ∈ l → p c = false → c ∈ l.dropWhile p
  | a :: t, hc, hpc => by
    by_cases ha : p a = true
    · rw [List.dropWhile_cons_of_pos ha]
      rcases List.mem_cons.mp hc with h | h
      · subst h; rw [ha] at hpc; cases hpc
      · exact mem_dropWhile_of_not h hpc
    · rw [List.dropWhile_cons_of_neg ha]
      exact hc

theorem pyStripWS_ne_nil {l : List Char} {c : Char}
    (hc : c ∈ l) (hsp : isPySpace c = false) : pyStripWS l ≠ [] := by
  intro hnil
  unfold pyStripWS at hnil
  rw [List.reverse_eq_nil_iff] at hnil
  have h1 : c ∈ l.dropWhile isPySpace := mem_dropWhile_of_not hc hsp
  have h2 : c ∈ (l.dropWhile isPySpace).reverse := List.mem_reverse.mpr h1
  have h3 : c ∈ (l.dropWhile isPySpace).reverse.dropWhile isPySpace :=
    mem_dropWhile_of_not h2 hsp
  rw [hnil] at h3
  cases h3

theorem splitWSAux_all_space :
    ∀ l : List Char, (∀ c ∈ l, isPySpace c = true) → splitWSAux l [] = []
  | [], _ => rfl
  | c :: rest, h => by
    have hc : isPySpace c = true := h c (by simp)
    have ih := splitWSAux_all_space rest (fun d hd => h d (by simp [hd]))
    simp [splitWSAux, hc, ih]

theorem exists_nonspace_of_splitWS_ne_nil {l : List Char} (h : splitWS l ≠ []) :
    ∃ c ∈ l, isPySpace c = false := by
  by_contra hcon
  push_neg at hcon
  refine h (splitWSAux_all_space l ?_)
  intro c hc
  rcases Bool.eq_false_or_eq_true (isPySpace c) with ht | hf
  · exact ht
  · exact absurd hf (hcon c hc)

theorem pyStripWS_ne_nil_of_splitWS {l : List Char} (h : splitWS l ≠ []) :
    pyStripWS l ≠ [] := by
  obtain ⟨c, hc, hsp⟩ := exists_nonspace_of_splitWS_ne_nil h
  exact pyStripWS_ne_nil hc hsp

theorem unknownStr_ne_nil : unknownStr ≠ [] := by decide

theorem joinAircraft_ne_nil (tokens : List (List Char)) : joinAircraft tokens ≠ [] := by
  unfold joinAircraft
  by_cases h : pyStrip " ,.;".data (joinSep [' '] tokens) = []
  · simp [h, unknownStr_ne_nil]
  · simp [h]

theorem parseSubjectChunk_fields_ne_nil (chunk : List Char) :
    (parseSubjectChunk chunk).1 ≠ [] ∧ (parseSubjectChunk chunk).2 ≠ [] := by
  unfold parseSubjectChunk
  by_cases hraw : splitWS chunk = []
  · simp [hraw, unknownStr_ne_nil]
  · simp only [hraw, if_false, if_neg hraw]
    set rawTokens := splitWS chunk with hrt
    cases hfind : findAircraftStartIndex rawTokens (rawTokens.map normalizeAircraftToken)
        ((rawTokens.map normalizeAircraftToken).map lowerStr) with
    | none =>
      simp only
      exact ⟨unknownStr_ne_nil, pyStripWS_ne_nil_of_splitWS hraw⟩
    | some aircraftStart =>
      simp only
      by_cases hman : tokensAreManufacturers (rawTokens.take aircraftStart) = true
      · simp only [hman, if_true]
        exact ⟨unknownStr_ne_nil, joinAircraft_ne_nil _⟩
      · simp only [hman, if_false, Bool.false_eq_true]
        by_cases hair : pyStripWS (joinSep [' ']
            ((rawTokens.take aircraftStart).filter (fun t => t.any pyIsAlpha))) = []
        · simp only [hair, if_true, if_pos]
          exact ⟨unknownStr_ne_nil, joinAircraft_ne_nil _⟩
        · simp only [hair, if_false, if_neg hair]
          exact ⟨hair, joinAircraft_ne_nil _⟩

theorem extractAircraftEntries_ne_nil (cleanTitle : List Char) :
    extractAircraftEntries cleanTitle ≠ [] := by
  unfold extractAircraftEntries
  by_cases hs : extractSubjectSegment cleanTitle = []
  · simp [hs]
  · simp only [hs, if_false, if_neg hs]
    split
    · rename_i hcond
      intro hnil
      rw [List.map_eq_nil_iff] at hnil
      exact hcond.1 hnil
    · simp

theorem extractAircraftEntries_fields_ne_nil (cleanTitle : List Char) :
    ∀ p ∈ extractAircraftEntries cleanTitle, p.1 ≠ [] ∧ p.2 ≠ [] := by
  unfold extractAircraftEntries
  by_cases hs : extractSubjectSegment cleanTitle = []
  · simp only [hs, if_true, if_pos]
    intro p hp
    rw [List.mem_singleton] at hp
    subst hp
    exact ⟨unknownStr_ne_nil, unknownStr_ne_nil⟩
  · simp only [hs, if_false, if_neg hs]
    split
    · intro p hp
      rw [List.mem_map] at hp
      obtain ⟨c, _, hc⟩ := hp
      rw [← hc]
      exact parseSubjectChunk_fields_ne_nil c
    · intro p hp
      rw [List.mem_singleton] at hp
      subst hp
      exact parseSubjectChunk_fields_ne_nil _

theorem buildEntries_length (title0 : List Char) (ts : Option Int) :
    ∀ (idx : Nat) (pairs : List (List Char × List Char)),
      (buildEntries title0 ts idx pairs).length = pairs.length
  | _, [] => rfl
  | idx, (_, _) :: rest => by
    simp [buildEntries, buildEntries_length title0 ts (idx + 1) rest]

theorem buildEntries_mem (title0 : List Char) (ts : Option Int) :
    ∀ (idx : Nat) (pairs : List (List Char × List Char)) (e : ParsedEntry),
      e ∈ buildEntries title0 ts idx pairs →
        ∃ pr ∈ pairs, e.airline = pr.1 ∧ e.aircraft = pr.2 ∧ e.timestamp = ts
  | idx, (al, ac) :: rest, e, he => by
    rw [buildEntries, List.mem_cons] at he
    rcases he with he | he
    · exact ⟨(al, ac), by simp, by simp [he]⟩
    · obtain ⟨pr, hpr, hfields⟩ := buildEntries_mem title0 ts (idx + 1) rest e he
      exact ⟨pr, by simp [hpr], hfields⟩

theorem buildEntries_get (title0 : List Char) (ts : Option Int) :
    ∀ (pairs : List (List Char × List Char)) (idx k : Nat)
      (hk : k < (buildEntries title0 ts idx pairs).length)
      (hk2 : k < pairs.length),
      (buildEntries title0 ts idx pairs).get ⟨k, hk⟩ =
        ⟨buildVariantTitle title0 (pairs.get ⟨k, hk2⟩).1 (idx + k), ts,
          (pairs.get ⟨k, hk2⟩).1, (pairs.get ⟨k, hk2⟩).2⟩
  | (al, ac) :: rest, idx, 0, hk, hk2 => by simp [buildEntries]
  | (al, ac) :: rest, idx, k + 1, hk, hk2 => by
    have hk2' : k < rest.length := by
      simp only [List.length_cons] at hk2
      omega
    have hk' : k < (buildEntries title0 ts (idx + 1) rest).length := by
      rw [buildEntries_length]
      exact hk2'
    have ih := buildEntries_get title0 ts rest (idx + 1) k hk' hk2'
    have harith : idx + 1 + k = idx + (k + 1) := by omega
    simp only [buildEntries, List.get_cons_succ]
    rw [ih, harith]

/-! ## Claim theorems -/

/-- Claim C1: for every non-empty input string, `process_title` returns
    at least one entry (it is a total function of its input, so no
    exception can occur), and in every returned entry the airline and
    the aircraft fields are non-empty strings. -/
theorem processTitle_total_nonempty (rawTitle : List Char) (_h : rawTitle ≠ []) :
    1 ≤ (processTitle rawTitle).length ∧
      ∀ e ∈ processTitle rawTitle, e.airline ≠ [] ∧ e.aircraft ≠ [] := by
  constructor
  · unfold processTitle
    rw [buildEntries_length]
    have h1 := extractAircraftEntries_ne_nil (titleForParsing rawTitle)
    cases hE : extractAircraftEntries (titleForParsing rawTitle) with
    | nil => exact absurd hE h1
    | cons p rest => simp
  · intro e he
    unfold processTitle at he
    obtain ⟨pr, hpr, hal, hac, _⟩ := buildEntries_mem _ _ _ _ _ he
    have := extractAircraftEntries_fields_ne_nil (titleForParsing rawTitle) pr hpr
    rw [hal, hac]
    exact this

/-- Witness for C1 at the concrete headline `"X"`. -/
theorem processTitle_total_nonempty_witness :
    "X".data ≠ [] ∧
      (1 ≤ (processTitle "X".data).length ∧
        ∀ e ∈ processTitle "X".data, e.airline ≠ [] ∧ e.aircraft ≠ []) :=
  ⟨by decide, processTitle_total_nonempty "X".data (by decide)⟩

/-- Claim C5: `date_to_timestamp` maps `"Mar 31st 2025"` to 1743379200
    and `"Jan 1st 2020"` to 1577836800 (midnight UTC of the named
    date), and returns `None` for the empty string and for any text
    that does not parse as a date after ordinal-suffix removal. -/
theorem dateToTimestamp_spec :
    dateToTimestamp "Mar 31st 2025".data = some 1743379200 ∧
    dateToTimestamp "Jan 1st 2020".data = some 1577836800 ∧
    dateToTimestamp "".data = none ∧
    ∀ s : List Char, strptimeBDY (removeOrdinals s) = none → dateToTimestamp s = none := by
  refine ⟨by decide, by decide, by decide, ?_⟩
  intro s h
  unfold dateToTimestamp
  by_cases hs : s = []
  · simp [hs]
  · simp [hs, h]

/-- Witness for C5 on the non-date text `"hello"`. -/
theorem dateToTimestamp_spec_witness :
    strptimeBDY (removeOrdinals "hello".data) = none ∧
      dateToTimestamp "hello".data = none :=
  ⟨by decide, dateToTimestamp_spec.2.2.2 "hello".data (by decide)⟩

/-- Counterexample to claim C2: for the title `"at Berlin"` subject
    extraction produces nothing (the title starts with a location
    preposition), and `_extract_aircraft_entries` returns the literal
    `("Unknown", "Unknown")` pair instead of parsing the entire working
    text as a single chunk, which would give aircraft `"at Berlin"`. -/
theorem extractEntries_empty_subject_cex :
    extractSubjectSegment "at Berlin".data = [] ∧
    extractAircraftEntries "at Berlin".data = [(unknownStr, unknownStr)] ∧
    parseSubjectChunk "at Berlin".data = (unknownStr, "at Berlin".data) ∧
    extractAircraftEntries "at Berlin".data ≠ [parseSubjectChunk "at Berlin".data] := by
  refine ⟨by decide, by decide, by decide, by decide⟩

/-- Claim C2 as amended: multiple entries are produced exactly when
    conjunction splitting yields two or more chunks that all parse to a
    non-`"Unknown"` aircraft; with a non-empty subject and no valid
    multi-chunk split the whole subject is parsed as one chunk; and
    when subject extraction produced nothing the single entry is the
    literal `("Unknown", "Unknown")` pair (the entire working text is
    not parsed in that case). -/
theorem extractEntries_branches (cleanTitle : List Char) :
    (extractSubjectSegment cleanTitle = [] →
        extractAircraftEntries cleanTitle = [(unknownStr, unknownStr)]) ∧
    (2 ≤ (splitSubjectChunks (extractSubjectSegment cleanTitle)).length →
      (∀ c ∈ splitSubjectChunks (extractSubjectSegment cleanTitle),
          (parseSubjectChunk c).2 ≠ unknownStr) →
      extractAircraftEntries cleanTitle =
        (splitSubjectChunks (extractSubjectSegment cleanTitle)).map parseSubjectChunk) ∧
    (extractSubjectSegment cleanTitle ≠ [] →
      ((splitSubjectChunks (extractSubjectSegment cleanTitle)).length < 2 ∨
        ∃ c ∈ splitSubjectChunks (extractSubjectSegment cleanTitle),
          (parseSubjectChunk c).2 = unknownStr) →
      extractAircraftEntries cleanTitle =
        [parseSubjectChunk (extractSubjectSegment cleanTitle)]) := by
  refine ⟨?_, ?_, ?_⟩
  · intro hs
    unfold extractAircraftEntries
    simp [hs]
  · intro hlen hall
    have hs : extractSubjectSegment cleanTitle ≠ [] := by
      intro hnil
      rw [hnil] at hlen
      simp [splitSubjectChunks] at hlen
    have hchunks : splitSubjectChunks (extractSubjectSegment cleanTitle) ≠ [] := by
      intro hnil
      rw [hnil] at hlen
      simp at hlen
    have hvalid : chunksAreValid
        ((splitSubjectChunks (extractSubjectSegment cleanTitle)).map parseSubjectChunk) := by
      constructor
      · rw [List.length_map]
        exact hlen
      · intro p hp
        rw [List.mem_map] at hp
        obtain ⟨c, hc, rfl⟩ := hp
        exact hall c hc
    unfold extractAircraftEntries
    simp only [if_neg hs]
    rw [if_pos ⟨hchunks, hvalid⟩]
  · intro hs hdisj
    have hcond : ¬ (splitSubjectChunks (extractSubjectSegment cleanTitle) ≠ [] ∧
        chunksAreValid
          ((splitSubjectChunks (extractSubjectSegment cleanTitle)).map parseSubjectChunk)) := by
      rintro ⟨-, hlen2, hallne⟩
      rw [List.length_map] at hlen2
      rcases hdisj with hlt | ⟨c, hc, hu⟩
      · omega
      · exact hallne (parseSubjectChunk c) (List.mem_map_of_mem parseSubjectChunk hc) hu
    unfold extractAircraftEntries
    simp only [if_neg hs]
    rw [if_neg hcond]

/-- Witness for the amended C2 on a two-aircraft headline. -/
theorem extractEntries_branches_witness :
    2 ≤ (splitSubjectChunks (extractSubjectSegment "Ryanair B738 and Delta A332".data)).length ∧
    (∀ c ∈ splitSubjectChunks (extractSubjectSegment "Ryanair B738 and Delta A332".data),
        (parseSubjectChunk c).2 ≠ unknownStr) ∧
    extractAircraftEntries "Ryanair B738 and Delta A332".data =
      (splitSubjectChunks (extractSubjectSegment "Ryanair B738 and Delta A332".data)).map
        parseSubjectChunk :=
  ⟨by decide, by decide,
    (extractEntries_branches "Ryanair B738 and Delta A332".data).2.1 (by decide) (by decide)⟩

/-- Counterexample to claim C3: the first entry of `process_title`
    carries the stripped title, not the original untrimmed string with
    its surrounding whitespace. -/
theorem processTitle_untrimmed_title_cex :
    (processTitle " B738 ".data).map ParsedEntry.title = ["B738".data] ∧
    "B738".data ≠ " B738 ".data := by
  refine ⟨by decide, by decide⟩

theorem buildEntries_title_endsWith (title0 : List Char) (ts : Option Int) :
    ∀ (idx : Nat) (pairs : List (List Char × List Char)) (e : ParsedEntry),
      e ∈ buildEntries title0 ts idx pairs → endsWithL title0 e.title = true
  | idx, (al, ac) :: rest, e, he => by
    rw [buildEntries, List.mem_cons] at he
    rcases he with he | he
    · subst he
      show endsWithL title0 (buildVariantTitle title0 al idx) = true
      unfold buildVariantTitle
      by_cases hidx : idx = 0
      · rw [if_pos hidx]
        have h0 : title0 = [] ++ title0 := rfl
        rw [h0]
        exact endsWithL_append_self title0 []
      · rw [if_neg hidx]
        rw [List.append_assoc, List.append_assoc, List.append_assoc]
        rw [← List.append_assoc, ← List.append_assoc, ← List.append_assoc]
        exact endsWithL_append_self title0 _
    · exact buildEntries_title_endsWith title0 ts (idx + 1) rest e he

/-- Claim C3 as amended: the first entry carries the stripped original
    title (comma clause included, surrounding whitespace removed), each
    later entry's title is the marker, a space, the resolved airline
    (or `"#"+(i+1)` when the airline is `"Unknown"`), `"] "` and the
    stripped original title, so every entry's title contains the
    stripped original title (as a suffix, hence as a substring). -/
theorem processTitle_title_structure (rawTitle : List Char) :
    (∀ e, (processTitle rawTitle).head? = some e → e.title = strippedTitle rawTitle) ∧
    (∀ i, ∀ hi : i < (processTitle rawTitle).length, 0 < i →
      ((processTitle rawTitle).get ⟨i, hi⟩).title =
        secondaryTitleMarker ++ [' '] ++
          (if ((processTitle rawTitle).get ⟨i, hi⟩).airline = unknownStr
           then '#' :: (Nat.repr (i + 1)).data
           else ((processTitle rawTitle).get ⟨i, hi⟩).airline) ++
          [']', ' '] ++ strippedTitle rawTitle) ∧
    (∀ e ∈ processTitle rawTitle, endsWithL (strippedTitle rawTitle) e.title = true) := by
  refine ⟨?_, ?_, ?_⟩
  · intro e he
    unfold processTitle at he
    cases hE : extractAircraftEntries (titleForParsing rawTitle) with
    | nil => rw [hE] at he; simp [buildEntries] at he
    | cons p rest =>
      rw [hE] at he
      cases p with
      | mk al ac =>
        rw [buildEntries, List.head?_cons, Option.some_inj] at he
        rw [← he]
        show buildVariantTitle (strippedTitle rawTitle) al 0 = strippedTitle rawTitle
        unfold buildVariantTitle
        simp
  · intro i hi hpos
    unfold processTitle at hi ⊢
    have hk2 : i < (extractAircraftEntries (titleForParsing rawTitle)).length := by
      rw [buildEntries_length] at hi
      exact hi
    rw [buildEntries_get _ _ _ _ _ hi hk2]
    show buildVariantTitle (strippedTitle rawTitle) _ (0 + i) = _
    unfold buildVariantTitle
    rw [if_neg (by omega : ¬ (0 + i) = 0)]
    have h0i : 0 + i = i := by omega
    rw [h0i]
  · intro e he
    unfold processTitle at he
    exact buildEntries_title_endsWith _ _ _ _ _ he

/-- Witness for the amended C3 on a two-aircraft headline (secondary
    entry at position 1). -/
theorem processTitle_title_structure_witness :
    ∃ hi : 1 < (processTitle "Canada BCS3 and United B38M at SFO".data).length,
      ((processTitle "Canada BCS3 and United B38M at SFO".data).get ⟨1, hi⟩).title =
        secondaryTitleMarker ++ [' '] ++
          (if ((processTitle "Canada BCS3 and United B38M at SFO".data).get ⟨1, hi⟩).airline =
              unknownStr
           then '#' :: (Nat.repr 2).data
           else ((processTitle "Canada BCS3 and United B38M at SFO".data).get ⟨1, hi⟩).airline) ++
          [']', ' '] ++ strippedTitle "Canada BCS3 and United B38M at SFO".data :=
  ⟨by decide,
    (processTitle_title_structure "Canada BCS3 and United B38M at SFO".data).2.1 1 (by decide)
      (by decide)⟩

/-- Counterexample to claim C4: for
    `"Crash on Feb 30th 2025"` the date phrase `"Feb 30th 2025"` is
    found, it fails to parse (Feb 30 does not exist), the timestamp is
    `None`, and yet the substring `" on Feb 30th 2025"` is still
    removed from the working text. -/
theorem dateRemoval_parse_failure_cex :
    foundDate "Crash on Feb 30th 2025".data = some "Feb 30th 2025".data ∧
    dateToTimestamp "Feb 30th 2025".data = none ∧
    entryTimestamp "Crash on Feb 30th 2025".data = none ∧
    titleForParsing "Crash on Feb 30th 2025".data = "Crash".data ∧
    titleForParsing "Crash on Feb 30th 2025".data ≠ preCommaText "Crash on Feb 30th 2025".data := by
  refine ⟨by decide, by decide, by decide, by decide, by decide⟩

/-- Claim C4 as amended: when the found date phrase fails to parse, the
    timestamp is `None`, but the `" on " + matched-date-text` segment
    is removed from the working text all the same (removal does not
    depend on parse success). -/
theorem dateRemoval_on_parse_failure (rawTitle dateStr : List Char)
    (h1 : foundDate rawTitle = some dateStr)
    (h2 : dateToTimestamp dateStr = none) :
    entryTimestamp rawTitle = none ∧
    titleForParsing rawTitle =
      pyStripWS (replaceAll (preCommaText rawTitle) (" on ".data ++ dateStr)) := by
  constructor
  · unfold entryTimestamp
    rw [h1]
    exact h2
  · unfold titleForParsing
    rw [h1]

/-- Witness for the amended C4 at `"Mishap on Feb 30th 2026"`. -/
theorem dateRemoval_on_parse_failure_witness :
    foundDate "Mishap on Feb 30th 2026".data = some "Feb 30th 2026".data ∧
    dateToTimestamp "Feb 30th 2026".data = none ∧
    (entryTimestamp "Mishap on Feb 30th 2026".data = none ∧
      titleForParsing "Mishap on Feb 30th 2026".data =
        pyStripWS (replaceAll (preCommaText "Mishap on Feb 30th 2026".data)
          (" on ".data ++ "Feb 30th 2026".data))) :=
  ⟨by decide, by decide,
    dateRemoval_on_parse_failure "Mishap on Feb 30th 2026".data "Feb 30th 2026".data
      (by decide) (by decide)⟩

/-- Counterexample to claim C7: for the empty chunk the token list is
    empty, the boundary detector finds no aircraft start, and
    `_parse_subject_chunk` returns `("Unknown", "Unknown")` rather than
    `("Unknown", <whole chunk trimmed>)`, which would be
    `("Unknown", "")`. -/
theorem parseChunk_no_boundary_cex :
    splitWS "".data = [] ∧
    findAircraftStartIndex [] [] [] = none ∧
    parseSubjectChunk "".data = (unknownStr, unknownStr) ∧
    parseSubjectChunk "".data ≠ (unknownStr, pyStripWS "".data) := by
  refine ⟨by decide, by decide, by decide, by decide⟩

theorem aircraftKeywords_ne_nil : ∀ k ∈ aircraftKeywordsL, k ≠ [] := by decide

theorem tokensAreManufacturers_of_forall {tokens : List (List Char)}
    (hne : tokens ≠ [])
    (hall : ∀ t ∈ tokens, lowerStr (normalizeAircraftToken t) ∈ aircraftKeywordsL) :
    tokensAreManufacturers tokens = true := by
  unfold tokensAreManufacturers
  rw [Bool.and_eq_true]
  constructor
  · rw [Bool.not_eq_true', List.isEmpty_eq_false_iff_exists_mem]
    cases tokens with
    | nil => exact absurd rfl hne
    | cons t rest => exact ⟨t, by simp⟩
  · rw [List.all_eq_true]
    intro t ht
    have hmem := hall t ht
    rw [Bool.and_eq_true]
    constructor
    · rw [Bool.not_eq_true', List.isEmpty_eq_false_iff_exists_mem]
      have hne2 := aircraftKeywords_ne_nil _ hmem
      cases hmm : lowerStr (normalizeAircraftToken t) with
      | nil => rw [hmm] at hne2; exact absurd rfl hne2
      | cons c cs => exact ⟨c, by simp⟩
    · exact decide_eq_true hmem

/-- Claim C7 as amended: `parse_chunk` returns
    `("Unknown", <whole chunk trimmed>)` for every chunk with at least
    one whitespace-delimited token in which the boundary detector finds
    no aircraft start (a chunk with no tokens yields
    `("Unknown", "Unknown")`); when a boundary is found and every
    candidate airline token normalizes to a manufacturer keyword, the
    airline is `"Unknown"` and those tokens are prepended back onto the
    aircraft tokens; and when the candidate airline tokens contain no
    token with a letter, the airline is `"Unknown"` and the tokens are
    prepended to the aircraft tokens instead of being discarded. -/
theorem parseChunk_rules (chunk : List Char) :
    (splitWS chunk = [] → parseSubjectChunk chunk = (unknownStr, unknownStr)) ∧
    (splitWS chunk ≠ [] →
      findAircraftStartIndex (splitWS chunk) ((splitWS chunk).map normalizeAircraftToken)
        (((splitWS chunk).map normalizeAircraftToken).map lowerStr) = none →
      parseSubjectChunk chunk = (unknownStr, pyStripWS chunk)) ∧
    (∀ i, findAircraftStartIndex (splitWS chunk) ((splitWS chunk).map normalizeAircraftToken)
        (((splitWS chunk).map normalizeAircraftToken).map lowerStr) = some i →
      (∀ t ∈ (splitWS chunk).take i,
          lowerStr (normalizeAircraftToken t) ∈ aircraftKeywordsL) →
      parseSubjectChunk chunk = (unknownStr,
        joinAircraft (trimAircraftTokens
          ((splitWS chunk).take i ++ (splitWS chunk).drop i)))) ∧
    (∀ i, findAircraftStartIndex (splitWS chunk) ((splitWS chunk).map normalizeAircraftToken)
        (((splitWS chunk).map normalizeAircraftToken).map lowerStr) = some i →
      (∀ t ∈ (splitWS chunk).take i, t.any pyIsAlpha = false) →
      parseSubjectChunk chunk = (unknownStr,
        joinAircraft (trimAircraftTokens
          ((splitWS chunk).take i ++ (splitWS chunk).drop i)))) := by
  refine ⟨?_, ?_, ?_, ?_⟩
  · intro hraw
    unfold parseSubjectChunk
    simp [hraw]
  · intro hraw hfind
    unfold parseSubjectChunk
    simp only [if_neg hraw]
    rw [hfind]
  · intro i hfind hall
    have hraw : splitWS chunk ≠ [] := by
      intro hnil
      rw [hnil] at hfind
      simp [findAircraftStartIndex, findAircraftStartByModel, findByModelAux,
        findMultiwordIdx, findSegIdx, findFirstIdx, multiwordPatternsL,
        AIRCRAFT_MULTIWORD_PATTERNS, List.findSome?] at hfind
    unfold parseSubjectChunk
    simp only [if_neg hraw]
    rw [hfind]
    by_cases htake : (splitWS chunk).take i = []
    · have hman : tokensAreManufacturers ((splitWS chunk).take i) = false := by
        rw [htake]; rfl
      simp only [hman, Bool.false_eq_true, if_false]
      rw [htake]
      simp only [List.filter_nil, List.nil_append]
      show (if pyStripWS (joinSep [' '] []) = [] then _ else _) = _
      simp [joinSep, pyStripWS]
    · have hman : tokensAreManufacturers ((splitWS chunk).take i) = true :=
        tokensAreManufacturers_of_forall htake hall
      simp only [hman, if_true]
  · intro i hfind hnoalpha
    have hraw : splitWS chunk ≠ [] := by
      intro hnil
      rw [hnil] at hfind
      simp [findAircraftStartIndex, findAircraftStartByModel, findByModelAux,
        findMultiwordIdx, findSegIdx, findFirstIdx, multiwordPatternsL,
        AIRCRAFT_MULTIWORD_PATTERNS, List.findSome?] at hfind
    unfold parseSubjectChunk
    simp only [if_neg hraw]
    rw [hfind]
    by_cases hman : tokensAreManufacturers ((splitWS chunk).take i) = true
    · simp only [hman, if_true]
    · simp only [hman, Bool.false_eq_true, if_false]
      have hfilter : ((splitWS chunk).take i).filter (fun t => t.any pyIsAlpha) = [] := by
        rw [List.filter_eq_nil_iff]
        intro t ht
        rw [hnoalpha t ht]
        exact Bool.false_ne_true
      have hfilter2 : ((splitWS chunk).take i).filter (fun t => !t.any pyIsAlpha) =
          (splitWS chunk).take i := by
        rw [List.filter_eq_self]
        intro t ht
        rw [hnoalpha t ht]
        rfl
      rw [hfilter]
      show (if pyStripWS (joinSep [' '] []) = [] then _ else _) = _
      rw [if_pos (by simp [joinSep, pyStripWS])]
      rw [hfilter2]

/-- Witness for the amended C7 on the chunk `"Unknown incident"`, where
    the boundary detector finds nothing. -/
theorem parseChunk_rules_witness :
    splitWS "Unknown incident".data ≠ [] ∧
    findAircraftStartIndex (splitWS "Unknown incident".data)
      ((splitWS "Unknown incident".data).map normalizeAircraftToken)
      (((splitWS "Unknown incident".data).map normalizeAircraftToken).map lowerStr) = none ∧
    parseSubjectChunk "Unknown incident".data =
      (unknownStr, pyStripWS "Unknown incident".data) :=
  ⟨by decide, by decide,
    (parseChunk_rules "Unknown incident".data).2.1 (by decide) (by decide)⟩

theorem startsWithL_marker_build (x y : List Char) :
    startsWithL (secondaryTitleMarker ++ [' '])
      (secondaryTitleMarker ++ [' '] ++ x ++ [']', ' '] ++ y) = true := by
  have h : secondaryTitleMarker ++ [' '] ++ x ++ [']', ' '] ++ y =
      (secondaryTitleMarker ++ [' ']) ++ (x ++ ([']', ' '] ++ y)) := by
    simp [List.append_assoc]
  rw [h]
  exact startsWithL_self_append _ _

/-- Counterexample to claim C9: a headline with leading whitespace but
    whose stripped form begins with the marker yields more than one
    entry whose primary title starts with `"[标记 "`, although the
    headline itself does not begin with that text. -/
theorem secondaryMarker_cex :
    (processTitle " [标记 Ryanair B738 and Delta A332 at P".data).map ParsedEntry.title =
      ["[标记 Ryanair B738 and Delta A332 at P".data,
       "[标记 Delta] [标记 Ryanair B738 and Delta A332 at P".data] ∧
    startsWithL (secondaryTitleMarker ++ [' '])
      "[标记 Ryanair B738 and Delta A332 at P".data = true ∧
    startsWithL (secondaryTitleMarker ++ [' '])
      " [标记 Ryanair B738 and Delta A332 at P".data = false := by
  refine ⟨by decide, by decide, by decide⟩

/-- Claim C9 as amended: every secondary title is exactly the literal
    `"[标记"`, a space, the airline (or `"#"+(i+1)` for `"Unknown"`),
    `"] "` and the stripped original title, so every secondary title
    starts with `"[标记 "`; the primary title starts with `"[标记 "`
    exactly when the stripped headline begins with that text. -/
theorem processTitle_secondary_marker (rawTitle : List Char) :
    (∀ i, ∀ hi : i < (processTitle rawTitle).length, 0 < i →
      ((processTitle rawTitle).get ⟨i, hi⟩).title =
        secondaryTitleMarker ++ [' '] ++
          (if ((processTitle rawTitle).get ⟨i, hi⟩).airline = unknownStr
           then '#' :: (Nat.repr (i + 1)).data
           else ((processTitle rawTitle).get ⟨i, hi⟩).airline) ++
          [']', ' '] ++ strippedTitle rawTitle) ∧
    (∀ i, ∀ hi : i < (processTitle rawTitle).length, 0 < i →
      startsWithL (secondaryTitleMarker ++ [' '])
        (((processTitle rawTitle).get ⟨i, hi⟩).title) = true) ∧
    (∀ e, (processTitle rawTitle).head? = some e →
      startsWithL (secondaryTitleMarker ++ [' ']) e.title =
        startsWithL (secondaryTitleMarker ++ [' ']) (strippedTitle rawTitle)) := by
  refine ⟨?_, ?_, ?_⟩
  · intro i hi hpos
    unfold processTitle at hi ⊢
    have hk2 : i < (extractAircraftEntries (titleForParsing rawTitle)).length := by
      rw [buildEntries_length] at hi
      exact hi
    rw [buildEntries_get _ _ _ _ _ hi hk2]
    show buildVariantTitle (strippedTitle rawTitle) _ (0 + i) = _
    unfold buildVariantTitle
    rw [if_neg (by omega : ¬ (0 + i) = 0)]
    have h0i : 0 + i = i := by omega
    rw [h0i]
  · intro i hi hpos
    unfold processTitle at hi ⊢
    have hk2 : i < (extractAircraftEntries (titleForParsing rawTitle)).length := by
      rw [buildEntries_length] at hi
      exact hi
    rw [buildEntries_get _ _ _ _ _ hi hk2]
    show startsWithL (secondaryTitleMarker ++ [' '])
      (buildVariantTitle (strippedTitle rawTitle) _ (0 + i)) = true
    unfold buildVariantTitle
    rw [if_neg (by omega : ¬ (0 + i) = 0)]
    exact startsWithL_marker_build _ _
  · intro e he
    unfold processTitle at he
    cases hE : extractAircraftEntries (titleForParsing rawTitle) with
    | nil => rw [hE] at he; simp [buildEntries] at he
    | cons p rest =>
      rw [hE] at he
      cases p with
      | mk al ac =>
        rw [buildEntries, List.head?_cons, Option.some_inj] at he
        rw [← he]
        show startsWithL _ (buildVariantTitle (strippedTitle rawTitle) al 0) = _
        unfold buildVariantTitle
        simp

/-- Witness for the amended C9 on a two-aircraft headline. -/
theorem processTitle_secondary_marker_witness :
    ∃ hi : 1 < (processTitle "Lufthansa A320 and Swiss A220 at Zurich".data).length,
      startsWithL (secondaryTitleMarker ++ [' '])
        (((processTitle "Lufthansa A320 and Swiss A220 at Zurich".data).get ⟨1, hi⟩).title) =
        true :=
  ⟨by decide,
    (processTitle_secondary_marker "Lufthansa A320 and Swiss A220 at Zurich".data).2.1 1
      (by decide) (by decide)⟩

/-! ## Stripping idempotence (for C10) -/

theorem dropWhile_dropWhile {α : Type} (p : α → Bool) (l : List α) :
    (l.dropWhile p).dropWhile p = l.dropWhile p := by
  induction l with
  | nil => rfl
  | cons a t ih =>
    by_cases h : p a = true
    · rw [List.dropWhile_cons_of_pos h]
      exact ih
    · rw [List.dropWhile_cons_of_neg h, List.dropWhile_cons_of_neg h]

theorem dropWhile_append_of_all {α : Type} (p : α → Bool) (ys : List α) :
    ∀ xs : List α, (∀ x ∈ xs, p x = true) →
      (xs ++ ys).dropWhile p = ys.dropWhile p
  | [], _ => rfl
  | a :: t, h => by
    have ha : p a = true := h a (by simp)
    rw [List.cons_append, List.dropWhile_cons_of_pos ha]
    exact dropWhile_append_of_all p ys t (fun x hx => h x (by simp [hx]))

theorem dropWhile_append_of_cons {α : Type} (p : α → Bool) (ys : List α) :
    ∀ (xs : List α) (b : α) (u : List α), xs.dropWhile p = b :: u →
      (xs ++ ys).dropWhile p = b :: u ++ ys
  | [], b, u, h => by cases h
  | a :: t, b, u, h => by
    by_cases ha : p a = true
    · rw [List.dropWhile_cons_of_pos ha] at h
      rw [List.cons_append, List.dropWhile_cons_of_pos ha]
      exact dropWhile_append_of_cons p ys t b u h
    · rw [List.dropWhile_cons_of_neg ha] at h
      rw [List.cons_append, List.dropWhile_cons_of_neg ha]
      rw [List.cons_eq_cons] at h
      rw [h.1, h.2]
      rfl

/-- `l` has no leading whitespace. -/
def noLeadSp (l : List Char) : Prop :=
  l.dropWhile isPySpace = l

theorem noLeadSp_dropWhile (l : List Char) : noLeadSp (l.dropWhile isPySpace) :=
  dropWhile_dropWhile isPySpace l

theorem noLeadSp_stripTrailing {l : List Char} (h : noLeadSp l) :
    noLeadSp (l.reverse.dropWhile isPySpace).reverse := by
  cases l with
  | nil => simp [noLeadSp]
  | cons a t =>
    have ha : isPySpace a = false := by
      by_contra hcon
      rw [Bool.not_eq_false] at hcon
      unfold noLeadSp at h
      rw [List.dropWhile_cons_of_pos hcon] at h
      have hlen : (t.dropWhile isPySpace).length ≤ t.length := dropWhileLengthLe _ _
      have : (t.dropWhile isPySpace).length = t.length + 1 := by rw [h]; simp
      omega
    rw [List.reverse_cons]
    cases hdw : t.reverse.dropWhile isPySpace with
    | nil =>
      have hall : ∀ x ∈ t.reverse, isPySpace x = true := by
        rw [← List.dropWhile_eq_nil_iff]
        exact hdw
      rw [dropWhile_append_of_all isPySpace [a] t.reverse hall]
      rw [List.dropWhile_cons_of_neg (by rw [ha]; exact Bool.false_ne_true)]
      unfold noLeadSp
      simp [List.dropWhile, ha]
    | cons b u =>
      rw [dropWhile_append_of_cons isPySpace [a] t.reverse b u hdw]
      unfold noLeadSp
      have hrev : (b :: u ++ [a]).reverse = a :: (u.reverse ++ [b]) := by
        simp
      rw [hrev]
      rw [List.dropWhile_cons_of_neg (by rw [ha]; exact Bool.false_ne_true)]

theorem pyStripWS_rev (l : List Char) :
    (pyStripWS l).reverse = (l.dropWhile isPySpace).reverse.dropWhile isPySpace := by
  unfold pyStripWS
  rw [List.reverse_reverse]

theorem pyStripWS_idem (l : List Char) : pyStripWS (pyStripWS l) = pyStripWS l := by
  have hE : (pyStripWS l).dropWhile isPySpace = pyStripWS l :=
    noLeadSp_stripTrailing (noLeadSp_dropWhile l)
  show (((pyStripWS l).dropWhile isPySpace).reverse.dropWhile isPySpace).reverse = pyStripWS l
  rw [hE, pyStripWS_rev, dropWhile_dropWhile, ← pyStripWS_rev, List.reverse_reverse]

theorem pyStripWS_preCommaText (rawTitle : List Char) :
    pyStripWS (preCommaText rawTitle) = preCommaText rawTitle := by
  unfold preCommaText
  by_cases h : (',' : Char) ∈ strippedTitle rawTitle
  · rw [if_pos h]
    exact pyStripWS_idem _
  · rw [if_neg h]
    unfold strippedTitle
    exact pyStripWS_idem _

theorem replaceAllAux_no_occur (old : List Char) :
    ∀ (fuel : Nat) (l : List Char), occursIn old l = false →
      replaceAllAux old fuel l = l
  | 0, _, _ => rfl
  | _ + 1, [], _ => rfl
  | fuel + 1, c :: rest, h => by
    unfold occursIn at h
    rw [Bool.or_eq_false_iff] at h
    unfold replaceAllAux
    rw [if_neg (by rw [h.1]; exact Bool.false_ne_true)]
    rw [replaceAllAux_no_occur old fuel rest h.2]

theorem replaceAll_no_occur {l old : List Char} (h : occursIn old l = false) :
    replaceAll l old = l := by
  unfold replaceAll
  by_cases ho : old = []
  · rw [if_pos ho]
  · rw [if_neg ho]
    exact replaceAllAux_no_occur old (l.length + 1) l h

/-- Counterexample to claim C10: in
    `"A Mar 1st 2025 B on Mar 1st 2025 at C"` the first date match
    starts at index 2 (after `"A "`), so the matched phrase is not
    preceded by `" on "` (only two characters precede it), yet the
    later occurrence of `" on Mar 1st 2025"` is removed from the
    working text, so removal is not suppressed. -/
theorem dateRemoval_not_preceded_cex :
    dateSearchAux (preCommaText "A Mar 1st 2025 B on Mar 1st 2025 at C".data) 0 =
      some (2, "Mar 1st 2025".data) ∧
    (preCommaText "A Mar 1st 2025 B on Mar 1st 2025 at C".data).take 2 = "A ".data ∧
    titleForParsing "A Mar 1st 2025 B on Mar 1st 2025 at C".data =
      "A Mar 1st 2025 B at C".data ∧
    titleForParsing "A Mar 1st 2025 B on Mar 1st 2025 at C".data ≠
      preCommaText "A Mar 1st 2025 B on Mar 1st 2025 at C".data := by
  refine ⟨by decide, by decide, by decide, by decide⟩

/-- Claim C10 as amended: when a date phrase is found, every occurrence
    of `" on " + matched-date-text` is removed from the working text
    (a single textual replacement of all occurrences, not only the one
    at the match position), and nothing is removed exactly when that
    segment occurs nowhere in the working text — in particular the mere
    fact that the matched phrase itself is not preceded by `" on "`
    does not prevent removal of other occurrences. -/
theorem dateRemoval_every_occurrence (rawTitle dateStr : List Char)
    (h : foundDate rawTitle = some dateStr) :
    titleForParsing rawTitle =
      pyStripWS (replaceAll (preCommaText rawTitle) (" on ".data ++ dateStr)) ∧
    (occursIn (" on ".data ++ dateStr) (preCommaText rawTitle) = false →
      titleForParsing rawTitle = preCommaText rawTitle) := by
  constructor
  · unfold titleForParsing
    rw [h]
  · intro hocc
    unfold titleForParsing
    rw [h]
    show pyStripWS (replaceAll (preCommaText rawTitle) (" on ".data ++ dateStr)) = _
    rw [replaceAll_no_occur hocc]
    exact pyStripWS_preCommaText rawTitle

/-- Witness for the amended C10 at `"X on Jan 2nd 2021 crash"`. -/
theorem dateRemoval_every_occurrence_witness :
    foundDate "X on Jan 2nd 2021 crash".data = some "Jan 2nd 2021".data ∧
    titleForParsing "X on Jan 2nd 2021 crash".data =
      pyStripWS (replaceAll (preCommaText "X on Jan 2nd 2021 crash".data)
        (" on ".data ++ "Jan 2nd 2021".data)) :=
  ⟨by decide,
    (dateRemoval_every_occurrence "X on Jan 2nd 2021 crash".data "Jan 2nd 2021".data
      (by decide)).1⟩

/-! ## Spec-side characterisations of the boundary detector (C6, C8) -/

/-- The catalog-match property as the spec phrases it: `run` is a
    prefix of `toks` of 1 to 6 tokens, every token of the run is
    non-empty after normalization, and the concatenation of the
    normalized keys is present in the catalog. -/
def specPrefixRun (toks run : List (List Char)) : Prop :=
  ∃ n, 1 ≤ n ∧ n ≤ AIRCRAFT_MODEL_MAX_TOKENS ∧ n ≤ toks.length ∧ run = toks.take n ∧
    (∀ t ∈ toks.take n, normalizeAircraftToken t ≠ []) ∧
    ((toks.take n).map (fun t => normalizeModelKey (normalizeAircraftToken t))).flatten ∈
      aircraftModelKeys

/-- Some run of 1 to 6 tokens starting at the head of `toks` matches
    the catalog. -/
def specModelMatchAt (toks : List (List Char)) : Prop :=
  ∃ run, specPrefixRun toks run

/-- The keyword-scan property as the spec phrases it: the token is a
    manufacturer/type keyword, or its `[A-Za-z0-9]` residue has length
    at least 3 and contains both a letter and a digit. -/
def specKeywordTok (t : List Char) : Prop :=
  lowerStr t ∈ aircraftKeywordsL ∨
    (3 ≤ (t.filter isAsciiAlphanum).length ∧
      (∃ c ∈ t.filter isAsciiAlphanum, c.isAlpha = true) ∧
      (∃ c ∈ t.filter isAsciiAlphanum, c.isDigit = true))

instance (t : List Char) : Decidable (specKeywordTok t) := by
  unfold specKeywordTok; infer_instance

theorem normalizeModelKey_append (a b : List Char) :
    normalizeModelKey (a ++ b) = normalizeModelKey a ++ normalizeModelKey b := by
  simp [normalizeModelKey, lowerStr]

theorem normalizeModelKey_space : normalizeModelKey [' '] = [] := by decide

theorem normalizeModelKey_joinSep : ∀ xs : List (List Char),
    normalizeModelKey (joinSep [' '] xs) = (xs.map normalizeModelKey).flatten
  | [] => rfl
  | [x] => by simp [joinSep]
  | x :: y :: r => by
    rw [joinSep, normalizeModelKey_append, normalizeModelKey_append]
    rw [normalizeModelKey_joinSep (y :: r), normalizeModelKey_space]
    simp

theorem modelRunOk_spec (toks : List (List Char)) (n : Nat) :
    modelRunOk (toks.map normalizeAircraftToken) n ↔
      ((∀ t ∈ toks.take n, normalizeAircraftToken t ≠ []) ∧
        ((toks.take n).map (fun t => normalizeModelKey (normalizeAircraftToken t))).flatten ∈
          aircraftModelKeys) := by
  unfold modelRunOk
  have hmt : (toks.map normalizeAircraftToken).take n =
      (toks.take n).map normalizeAircraftToken := by
    rw [List.map_take]
  rw [hmt, normalizeModelKey_joinSep, List.map_map]
  constructor
  · rintro ⟨h1, h2⟩
    refine ⟨?_, by simpa [Function.comp] using h2⟩
    intro t ht
    exact h1 (normalizeAircraftToken t) (List.mem_map_of_mem _ ht)
  · rintro ⟨h1, h2⟩
    refine ⟨?_, by simpa [Function.comp] using h2⟩
    intro t ht
    rw [List.mem_map] at ht
    obtain ⟨s, hs, rfl⟩ := ht
    exact h1 s hs

theorem matchKnownAux_eq_some (raw san : List (List Char)) :
    ∀ (m : Nat) (r : List (List Char)), matchKnownAux raw san m = some r →
      ∃ n, 1 ≤ n ∧ n ≤ m ∧ modelRunOk san n ∧ r = raw.take n
  | 0, _, h => by cases h
  | m + 1, r, h => by
    unfold matchKnownAux at h
    by_cases hc : modelRunOk san (m + 1)
    · rw [if_pos hc, Option.some_inj] at h
      exact ⟨m + 1, by omega, le_refl _, hc, h.symm⟩
    · rw [if_neg hc] at h
      obtain ⟨n, h1, h2, h3, h4⟩ := matchKnownAux_eq_some raw san m r h
      exact ⟨n, h1, by omega, h3, h4⟩

theorem matchKnownAux_isSome_iff (raw san : List (List Char)) :
    ∀ m : Nat, (matchKnownAux raw san m).isSome = true ↔
      ∃ n, 1 ≤ n ∧ n ≤ m ∧ modelRunOk san n
  | 0 => by
    simp only [matchKnownAux, Option.isSome_none, Bool.false_eq_true, false_iff]
    rintro ⟨n, h1, h2, -⟩
    omega
  | m + 1 => by
    unfold matchKnownAux
    by_cases hc : modelRunOk san (m + 1)
    · simp only [if_pos hc, Option.isSome_some, true_iff]
      exact ⟨m + 1, by omega, le_refl _, hc⟩
    · rw [if_neg hc, matchKnownAux_isSome_iff raw san m]
      constructor
      · rintro ⟨n, h1, h2, h3⟩
        exact ⟨n, h1, by omega, h3⟩
      · rintro ⟨n, h1, h2, h3⟩
        refine ⟨n, h1, ?_, h3⟩
        rcases Nat.lt_or_ge n (m + 1) with h | h
        · omega
        · have hn : n = m + 1 := by omega
          rw [hn] at h3
          exact absurd h3 hc

theorem matchKnown_some_spec {toks r : List (List Char)}
    (h : matchKnownAircraftTokens toks = some r) : specPrefixRun toks r := by
  unfold matchKnownAircraftTokens at h
  obtain ⟨n, h1, h2, h3, h4⟩ := matchKnownAux_eq_some _ _ _ _ h
  rw [modelRunOk_spec] at h3
  rw [Nat.le_min] at h2
  exact ⟨n, h1, h2.2, h2.1, h4, h3.1, h3.2⟩

theorem matchKnown_isSome_iff (toks : List (List Char)) :
    (matchKnownAircraftTokens toks).isSome = true ↔ specModelMatchAt toks := by
  constructor
  · intro h
    rw [Option.isSome_iff_exists] at h
    obtain ⟨r, hr⟩ := h
    exact ⟨r, matchKnown_some_spec hr⟩
  · rintro ⟨r, n, h1, h2, h3, -, h5, h6⟩
    unfold matchKnownAircraftTokens
    rw [matchKnownAux_isSome_iff]
    refine ⟨n, h1, ?_, ?_⟩
    · rw [Nat.le_min]
      exact ⟨h3, h2⟩
    · rw [modelRunOk_spec]
      exact ⟨h5, h6⟩

theorem matchKnown_nil_none : matchKnownAircraftTokens [] = none := rfl

theorem findByModelAux_some :
    ∀ (l : List (List Char)) (i0 j : Nat), findByModelAux l i0 = some j →
      i0 ≤ j ∧ j - i0 < l.length ∧
        (matchKnownAircraftTokens (l.drop (j - i0))).isSome = true ∧
        ∀ k < j - i0, (matchKnownAircraftTokens (l.drop k)).isSome = false
  | [], _, _, h => by cases h
  | t :: rest, i0, j, h => by
    unfold findByModelAux at h
    by_cases hc : (matchKnownAircraftTokens (t :: rest)).isSome = true
    · rw [if_pos hc, Option.some_inj] at h
      subst h
      refine ⟨le_refl _, ?_, ?_, ?_⟩
      · simp only [Nat.sub_self, List.length_cons]
        omega
      · simpa [Nat.sub_self] using hc
      · intro k hk
        omega
    · rw [if_neg hc] at h
      obtain ⟨h1, h2, h3, h4⟩ := findByModelAux_some rest (i0 + 1) j h
      have hj : j - i0 = (j - (i0 + 1)) + 1 := by omega
      refine ⟨by omega, ?_, ?_, ?_⟩
      · simp only [List.length_cons]
        omega
      · rw [hj, List.drop_succ_cons]
        exact h3
      · intro k hk
        cases k with
        | zero =>
          rw [List.drop_zero]
          exact Bool.not_eq_true _ ▸ eq_false_of_ne_true hc
        | succ k' =>
          rw [List.drop_succ_cons]
          exact h4 k' (by omega)

theorem findByModelAux_none :
    ∀ (l : List (List Char)) (i0 : Nat), findByModelAux l i0 = none →
      ∀ k, (matchKnownAircraftTokens (l.drop k)).isSome = false
  | [], _, _, k => by
    rw [List.drop_nil, matchKnown_nil_none]
    rfl
  | t :: rest, i0, h, k => by
    unfold findByModelAux at h
    by_cases hc : (matchKnownAircraftTokens (t :: rest)).isSome = true
    · rw [if_pos hc] at h
      cases h
    · rw [if_neg hc] at h
      cases k with
      | zero =>
        rw [List.drop_zero]
        exact eq_false_of_ne_true hc
      | succ k' =>
        rw [List.drop_succ_cons]
        exact findByModelAux_none rest (i0 + 1) h k'

theorem findFirstIdx_some {α : Type} (p : α → Bool) :
    ∀ (l : List α) (i : Nat), findFirstIdx p l = some i →
      ∃ hi : i < l.length, p (l.get ⟨i, hi⟩) = true ∧
        ∀ j, ∀ hj : j < l.length, j < i → p (l.get ⟨j, hj⟩) = false
  | [], _, h => by cases h
  | a :: rest, i, h => by
    unfold findFirstIdx at h
    by_cases hp : p a = true
    · rw [if_pos hp, Option.some_inj] at h
      subst h
      exact ⟨by simp, by simpa using hp, fun j hj hji => absurd hji (by omega)⟩
    · rw [if_neg hp, Option.map_eq_some'] at h
      obtain ⟨i', hi', hieq⟩ := h
      subst hieq
      obtain ⟨hlt, hpi, hprev⟩ := findFirstIdx_some p rest i' hi'
      refine ⟨by simp only [List.length_cons]; omega, ?_, ?_⟩
      · rw [List.get_cons_succ]
        exact hpi
      · intro j hj hji
        cases j with
        | zero =>
          simpa using eq_false_of_ne_true hp
        | succ j' =>
          rw [List.get_cons_succ]
          exact hprev j' (by simp only [List.length_cons] at hj; omega) (by omega)

theorem findFirstIdx_none {α : Type} (p : α → Bool) :
    ∀ l : List α, findFirstIdx p l = none → ∀ a ∈ l, p a = false
  | [], _, a, ha => by cases ha
  | b :: rest, h, a, ha => by
    unfold findFirstIdx at h
    by_cases hp : p b = true
    · rw [if_pos hp] at h
      cases h
    · rw [if_neg hp, Option.map_eq_none'] at h
      rcases List.mem_cons.mp ha with rfl | ha'
      · exact eq_false_of_ne_true hp
      · exact findFirstIdx_none p rest h a ha'

theorem tokenMatchesAircraft_iff (t : List Char) :
    tokenMatchesAircraft t = true ↔ specKeywordTok t := by
  by_cases h0 : t = []
  · subst h0
    decide
  · unfold tokenMatchesAircraft specKeywordTok
    rw [if_neg h0]
    by_cases hk : lowerStr t ∈ aircraftKeywordsL
    · simp [hk]
    · rw [if_neg hk]
      by_cases hlen : (t.filter isAsciiAlphanum).length < 3
      · rw [if_pos hlen]
        simp only [Bool.false_eq_true, false_iff]
        rintro (hmem | ⟨hlen2, -⟩)
        · exact hk hmem
        · omega
      · rw [if_neg hlen]
        rw [Bool.and_eq_true, List.any_eq_true, List.any_eq_true]
        constructor
        · rintro ⟨⟨c1, hc1, hc1a⟩, c2, hc2, hc2d⟩
          exact Or.inr ⟨by omega, ⟨c1, hc1, hc1a⟩, ⟨c2, hc2, hc2d⟩⟩
        · rintro (hmem | ⟨-, ⟨c1, hc1, hc1a⟩, c2, hc2, hc2d⟩)
          · exact absurd hmem hk
          · exact ⟨⟨c1, hc1, hc1a⟩, c2, hc2, hc2d⟩

/-- Claim C6: the boundary detector applies its three strategies in
    strict priority order (known-model scan, then multi-word descriptor
    scan, then keyword scan), returning the first strategy's result;
    the known-model scan returns the earliest starting index at which
    some run of 1 to 6 tokens, all non-empty after normalization, has a
    concatenated normalized key in the catalog; and the keyword scan
    returns the index of the first token that is a manufacturer/type
    keyword or whose alphanumeric residue has length at least 3 and
    contains both a letter and a digit. -/
theorem findAircraftStart_spec (rawTokens : List (List Char)) :
    (∀ i, findAircraftStartByModel rawTokens = some i →
      findAircraftStartIndex rawTokens (rawTokens.map normalizeAircraftToken)
        ((rawTokens.map normalizeAircraftToken).map lowerStr) = some i) ∧
    (findAircraftStartByModel rawTokens = none →
      ∀ i, findMultiwordIdx ((rawTokens.map normalizeAircraftToken).map lowerStr) = some i →
        findAircraftStartIndex rawTokens (rawTokens.map normalizeAircraftToken)
          ((rawTokens.map normalizeAircraftToken).map lowerStr) = some i) ∧
    (findAircraftStartByModel rawTokens = none →
      findMultiwordIdx ((rawTokens.map normalizeAircraftToken).map lowerStr) = none →
      findAircraftStartIndex rawTokens (rawTokens.map normalizeAircraftToken)
        ((rawTokens.map normalizeAircraftToken).map lowerStr) =
        findFirstIdx tokenMatchesAircraft (rawTokens.map normalizeAircraftToken)) ∧
    (∀ i, findAircraftStartByModel rawTokens = some i →
      i < rawTokens.length ∧ specModelMatchAt (rawTokens.drop i) ∧
        ∀ j < i, ¬ specModelMatchAt (rawTokens.drop j)) ∧
    (findAircraftStartByModel rawTokens = none →
      ∀ j, ¬ specModelMatchAt (rawTokens.drop j)) ∧
    (∀ i, findFirstIdx tokenMatchesAircraft (rawTokens.map normalizeAircraftToken) = some i →
      ∃ hi : i < (rawTokens.map normalizeAircraftToken).length,
        specKeywordTok ((rawTokens.map normalizeAircraftToken).get ⟨i, hi⟩) ∧
        ∀ j, ∀ hj : j < (rawTokens.map normalizeAircraftToken).length, j < i →
          ¬ specKeywordTok ((rawTokens.map normalizeAircraftToken).get ⟨j, hj⟩)) ∧
    (findFirstIdx tokenMatchesAircraft (rawTokens.map normalizeAircraftToken) = none →
      ∀ t ∈ rawTokens.map normalizeAircraftToken, ¬ specKeywordTok t) := by
  refine ⟨?_, ?_, ?_, ?_, ?_, ?_, ?_⟩
  · intro i h
    unfold findAircraftStartIndex
    simp only [h]
  · intro hm i h
    unfold findAircraftStartIndex
    simp only [hm, h]
  · intro hm hmw
    unfold findAircraftStartIndex
    simp only [hm, hmw]
  · intro i h
    unfold findAircraftStartByModel at h
    obtain ⟨-, h2, h3, h4⟩ := findByModelAux_some rawTokens 0 i h
    rw [Nat.sub_zero] at h2 h3 h4
    refine ⟨h2, (matchKnown_isSome_iff _).mp h3, ?_⟩
    intro j hj hspec
    have := (matchKnown_isSome_iff (rawTokens.drop j)).mpr hspec
    rw [h4 j hj] at this
    cases this
  · intro h j hspec
    unfold findAircraftStartByModel at h
    have hall := findByModelAux_none rawTokens 0 h j
    have := (matchKnown_isSome_iff (rawTokens.drop j)).mpr hspec
    rw [hall] at this
    cases this
  · intro i h
    obtain ⟨hi, hpi, hprev⟩ := findFirstIdx_some tokenMatchesAircraft _ i h
    refine ⟨hi, (tokenMatchesAircraft_iff _).mp hpi, ?_⟩
    intro j hj hji hspec
    have := (tokenMatchesAircraft_iff _).mpr hspec
    rw [hprev j hj hji] at this
    cases this
  · intro h t ht hspec
    have := (tokenMatchesAircraft_iff t).mpr hspec
    rw [findFirstIdx_none tokenMatchesAircraft _ h t ht] at this
    cases this

/-- Witness for C6 on the token list `["Delta", "A332"]`: the
    known-model scan fires at index 1 and the detector returns it. -/
theorem findAircraftStart_spec_witness :
    findAircraftStartByModel ["Delta".data, "A332".data] = some 1 ∧
    findAircraftStartIndex ["Delta".data, "A332".data]
      (["Delta".data, "A332".data].map normalizeAircraftToken)
      ((["Delta".data, "A332".data].map normalizeAircraftToken).map lowerStr) = some 1 :=
  ⟨by decide, (findAircraftStart_spec ["Delta".data, "A332".data]).1 1 (by decide)⟩

theorem trimAircraftLoop_spec :
    ∀ (l acc : List (List Char)), acc ≠ [] →
      trimAircraftLoop l acc = acc.reverse ++
        (match findFirstIdx isStopToken l with
         | none => l
         | some j => l.take j)
  | [], acc, _ => by simp [trimAircraftLoop, findFirstIdx]
  | t :: rest, acc, hacc => by
    unfold trimAircraftLoop findFirstIdx
    by_cases hstop : isStopToken t = true
    · have hcond : (isStopToken t && !acc.isEmpty) = true := by
        rw [hstop, Bool.true_and, Bool.not_eq_true', List.isEmpty_eq_false_iff_exists_mem]
        cases acc with
        | nil => exact absurd rfl hacc
        | cons a as => exact ⟨a, by simp⟩
      rw [if_pos hcond, if_pos hstop]
      simp
    · have hcond : ¬ (isStopToken t && !acc.isEmpty) = true := by
        rw [eq_false_of_ne_true hstop]
        simp
      rw [if_neg hcond, if_neg hstop]
      rw [trimAircraftLoop_spec rest (t :: acc) (List.cons_ne_nil t acc)]
      cases hf : findFirstIdx isStopToken rest with
      | none => simp
      | some j => simp [List.take_succ_cons]

theorem trimAircraftTokens_none_spec (t : List Char) (rest : List (List Char))
    (h : matchKnownAircraftTokens (t :: rest) = none) :
    trimAircraftTokens (t :: rest) = t ::
      (match findFirstIdx isStopToken rest with
       | none => rest
       | some j => rest.take j) := by
  unfold trimAircraftTokens
  rw [if_neg (List.cons_ne_nil t rest)]
  simp only [h]
  have hloop : trimAircraftLoop (t :: rest) [] = t ::
      (match findFirstIdx isStopToken rest with
       | none => rest
       | some j => rest.take j) := by
    unfold trimAircraftLoop
    have hcond : ¬ (isStopToken t && !(List.isEmpty ([] : List (List Char)))) = true := by
      simp
    rw [if_neg hcond]
    rw [trimAircraftLoop_spec rest [t] (List.cons_ne_nil _ _)]
    cases hf : findFirstIdx isStopToken rest with
    | none => simp
    | some j => simp

  rw [hloop]
  rw [if_neg (List.cons_ne_nil _ _)]

/-- Claim C8: `trim_aircraft_tokens` on a non-empty token sequence
    returns the catalog-matched prefix run when one of up to 6 tokens
    exists (discarding everything after it); otherwise it returns the
    prefix ending just before the first stopword token that occurs
    after at least one accumulated token, the whole sequence when no
    stopword triggers a stop, and its result is never empty. -/
theorem trimAircraftTokens_spec (toks : List (List Char)) (h : toks ≠ []) :
    ((matchKnownAircraftTokens toks).isSome = true ↔ ∃ run, specPrefixRun toks run) ∧
    (∀ run, matchKnownAircraftTokens toks = some run →
      specPrefixRun toks run ∧ trimAircraftTokens toks = run) ∧
    (matchKnownAircraftTokens toks = none →
      ∀ j, findFirstIdx isStopToken toks.tail = some j →
        trimAircraftTokens toks = toks.take (j + 1)) ∧
    (matchKnownAircraftTokens toks = none →
      findFirstIdx isStopToken toks.tail = none → trimAircraftTokens toks = toks) ∧
    trimAircraftTokens toks ≠ [] := by
  refine ⟨matchKnown_isSome_iff toks, ?_, ?_, ?_, ?_⟩
  · intro run hr
    refine ⟨matchKnown_some_spec hr, ?_⟩
    unfold trimAircraftTokens
    rw [if_neg h]
    simp only [hr]
  · intro hnone j hj
    cases toks with
    | nil => exact absurd rfl h
    | cons t rest =>
      rw [trimAircraftTokens_none_spec t rest hnone]
      simp only [List.tail_cons] at hj
      simp only [hj, List.take_succ_cons]
  · intro hnone hfnone
    cases toks with
    | nil => exact absurd rfl h
    | cons t rest =>
      rw [trimAircraftTokens_none_spec t rest hnone]
      simp only [List.tail_cons] at hfnone
      simp only [hfnone]
  · cases hmk : matchKnownAircraftTokens toks with
    | some run =>
      have hspec := matchKnown_some_spec hmk
      obtain ⟨n, h1, -, h3, h4, -, -⟩ := hspec
      have htrim : trimAircraftTokens toks = run := by
        unfold trimAircraftTokens
        rw [if_neg h]
        simp only [hmk]
      rw [htrim, h4]
      have hlen : (toks.take n).length = min n toks.length := List.length_take n toks
      intro hnil
      rw [hnil] at hlen
      simp only [List.length_nil] at hlen
      have hpos : 0 < toks.length := List.length_pos.mpr h
      omega
    | none =>
      cases toks with
      | nil => exact absurd rfl h
      | cons t rest =>
        rw [trimAircraftTokens_none_spec t rest hmk]
        exact List.cons_ne_nil _ _

/-- Witness for C8 on the token list `["B738", "enroute"]`: the
    catalog prefix `["B738"]` matches and everything after it is
    discarded. -/
theorem trimAircraftTokens_spec_witness :
    ["B738".data, "enroute".data] ≠ ([] : List (List Char)) ∧
    matchKnownAircraftTokens ["B738".data, "enroute".data] = some ["B738".data] ∧
    (specPrefixRun ["B738".data, "enroute".data] ["B738".data] ∧
      trimAircraftTokens ["B738".data, "enroute".data] = ["B738".data]) :=
  ⟨by decide, by decide,
    (trimAircraftTokens_spec ["B738".data, "enroute".data] (by decide)).2.1
      ["B738".data] (by decide)⟩

